import Mathlib

/-!
Verification development for the BuscaVetorizada vector-space retrieval
pipeline.  The numeric core lives in two Python modules:

* `src/Indexador.py`    — `Indexador._calcular_pesos` turns an in-memory
  inverted list (term → ordered multiset of document ids) into a TF-IDF
  weight table and a per-document Euclidean-norm table.
* `src/Buscador.py`     — `Buscador._realizar_buscas` scores each query
  against the weight table by cosine similarity and produces a ranked
  (position, document, score) list per query.

The embedding below models Python `dict`s as insertion-ordered association
lists, Python arbitrary-precision `int` document ids as `Int`, and Python
floats as real numbers (`math.log10` as `Real.logb 10`, `math.sqrt` as
`Real.sqrt`, float division as real division).  Python's `sorted` with
`key=... , reverse=True` is a stable sort producing a non-increasing key
sequence; it is modelled by `List.mergeSort` with the reversed comparison,
which is likewise stable.
-/

namespace BuscaVetorizada

/-- Python `dict` lookup `d[k]` / `k in d` on an insertion-ordered
association list (keys are unique in an actual `dict`, so taking the
first hit is faithful). -/
def dictGet {α β : Type} [DecidableEq α] (k : α) : List (α × β) → Option β
  | [] => none
  | p :: rest => if p.1 = k then some p.2 else dictGet k rest

/-- Python `dict` assignment `d[k] = v`: overwrite in place when the key
exists, otherwise append at the end (insertion order). -/
def dictSet {α β : Type} [DecidableEq α] : List (α × β) → α → β → List (α × β)
  | [], k, v => [(k, v)]
  | p :: rest, k, v => if p.1 = k then (k, v) :: rest else p :: dictSet rest k v

/-- Python `defaultdict` accumulation `d[k] += x` with default `0`
(`0 + x = x` on first insertion, so the fresh entry stores `x`). -/
def updAdd {α : Type} [DecidableEq α] : List (α × ℝ) → α → ℝ → List (α × ℝ)
  | [], k, x => [(k, x)]
  | p :: rest, k, x => if p.1 = k then (p.1, p.2 + x) :: rest else p :: updAdd rest k x

/-- Distinct elements of a list in order of first occurrence: the key
order a Python `dict`/`defaultdict` acquires when fed the list one
element at a time. -/
def firstKeys {α : Type} [DecidableEq α] : List α → List α
  | [] => []
  | a :: rest => a :: firstKeys (rest.filter (fun x => ¬ (x = a)))
termination_by l => l.length
decreasing_by
  simp only [List.length_cons]
  exact Nat.lt_succ_of_le (List.length_filter_le _ _)

/-! ## Indexador (`src/Indexador.py`) -/

/-- `self.documentos`, built while loading the inverted list
(`Indexador._carregar_lista_invertida`, line 82): the set of every
document id occurring in any term's occurrence list.  Only its size is
ever read (`num_total_documentos = len(self.documentos)`). -/
def documentos (listaInvertida : List (String × List Int)) : Finset Int :=
  listaInvertida.foldl (fun s p => s ∪ p.2.toFinset) ∅

/-- Body of the first loop of `Indexador._calcular_pesos` (lines
104–124) for one term: `num_docs_com_palavra = len(set(lista_docs))`,
`idf = math.log10(num_total_documentos / num_docs_com_palavra)`,
term frequencies counted by iterating `lista_docs`, and one weight
`(1 + math.log10(freq)) * idf` stored per distinct document, in first
occurrence order (the `defaultdict` insertion order of
`frequencia_termo_doc`). -/
noncomputable def pesosTermo (numTotalDocumentos : ℕ) (listaDocs : List Int) :
    List (Int × ℝ) :=
  (firstKeys listaDocs).map (fun docId =>
    (docId, (1 + Real.logb 10 ((listaDocs.count docId : ℕ) : ℝ)) *
      Real.logb 10 ((numTotalDocumentos : ℝ) / ((listaDocs.toFinset.card : ℕ) : ℝ))))

/-- `self.modelo` after the first loop of `_calcular_pesos`: one inner
dict per term of the inverted list, in term order. -/
noncomputable def modeloDe (listaInvertida : List (String × List Int)) :
    List (String × List (Int × ℝ)) :=
  listaInvertida.map (fun p => (p.1, pesosTermo (documentos listaInvertida).card p.2))

/-- `self.normas_documentos` after the accumulation loop of
`_calcular_pesos` (lines 130–132): a `defaultdict(float)` receiving
`peso ** 2` for every `(palavra, doc_id, peso)` entry of the model, in
model iteration order. -/
noncomputable def normasQuadradas (modelo : List (String × List (Int × ℝ))) :
    List (Int × ℝ) :=
  modelo.foldl (fun acc p => p.2.foldl (fun a q => updAdd a q.1 (q.2 ^ 2)) acc) []

/-- `self.normas_documentos` after the square-root loop of
`_calcular_pesos` (lines 134–135). -/
noncomputable def normasDe (modelo : List (String × List (Int × ℝ))) :
    List (Int × ℝ) :=
  (normasQuadradas modelo).map (fun p => (p.1, Real.sqrt p.2))

/-- `Indexador._calcular_pesos` (lines 93–137): early return with both
tables empty when no document exists (lines 100–102), otherwise the
weight table followed by the two norm passes.  (For a term whose
occurrence list is empty the Python code would raise `ZeroDivisionError`
while computing the idf; §3 of the spec makes such terms impossible, and
every claim below only touches terms with at least one occurrence.) -/
noncomputable def calcular_pesos (listaInvertida : List (String × List Int)) :
    List (String × List (Int × ℝ)) × List (Int × ℝ) :=
  if (documentos listaInvertida).card = 0 then ([], [])
  else (modeloDe listaInvertida, normasDe (modeloDe listaInvertida))

/-! ## Buscador (`src/Buscador.py`) -/

/-- `query_text.split()` (`_realizar_buscas`, line 117): Python's
no-argument `split` cuts at every whitespace character and drops the
empty fragments, i.e. it splits on runs of whitespace with no empty
tokens at the edges. -/
def split_query (s : String) : List String :=
  ((s.toList.splitOnP (fun c => c.isWhitespace)).filter (fun w => ¬ (w = []))).map
    (fun w => String.mk w)

/-- Dot-product accumulation of `_realizar_buscas` (lines 129–133):
for each query term found in the weight table, add `peso * 1` into the
`scores_docs` defaultdict for every document under that term. -/
noncomputable def scoresAcc (modeloTfidf : List (String × List (Int × ℝ)))
    (termosConsulta : List String) : List (Int × ℝ) :=
  termosConsulta.foldl (fun scoresDocs termo =>
    match dictGet termo modeloTfidf with
    | some docs => docs.foldl (fun acc q => updAdd acc q.1 (q.2 * 1)) scoresDocs
    | none => scoresDocs) []

/-- Normalization loop of `_realizar_buscas` (lines 136–139): each score
is divided in place by `norma_doc * norma_consulta`, where `norma_doc`
is looked up with default `1` (`self.normas_documentos.get(doc_id, 1)`),
and the division is skipped — the raw score kept — unless
`norma_doc > 0`. -/
noncomputable def normalizar (normasDocumentos : List (Int × ℝ)) (normaConsulta : ℝ)
    (scoresDocs : List (Int × ℝ)) : List (Int × ℝ) :=
  scoresDocs.map (fun p =>
    if ((dictGet p.1 normasDocumentos).getD 1) > 0 then
      (p.1, p.2 / (((dictGet p.1 normasDocumentos).getD 1) * normaConsulta))
    else p)

/-- `sorted(scores_docs.items(), key=lambda item: item[1], reverse=True)`
(line 142): a stable sort into non-increasing score order. -/
noncomputable def rankear (scoresDocs : List (Int × ℝ)) : List (Int × ℝ) :=
  scoresDocs.mergeSort (fun a b => decide (b.2 ≤ a.2))

/-- Output formatting loop of `_realizar_buscas` (lines 145–148):
`enumerate` the ranked pairs and emit `(i + 1, doc_id, score)`. -/
def formatar (docsRanqueados : List (Int × ℝ)) : List (ℕ × Int × ℝ) :=
  docsRanqueados.enum.map (fun q => (q.1 + 1, q.2.1, q.2.2))

/-- Body of the per-query loop of `_realizar_buscas` (lines 115–150):
`none` when the query is skipped (`norma_consulta == 0`, line 125),
otherwise the formatted ranking stored for the query. -/
noncomputable def processar_consulta (modeloTfidf : List (String × List (Int × ℝ)))
    (normasDocumentos : List (Int × ℝ)) (queryText : String) :
    Option (List (ℕ × Int × ℝ)) :=
  if Real.sqrt ((split_query queryText).length : ℝ) = 0 then none
  else some (formatar (rankear (normalizar normasDocumentos
    (Real.sqrt ((split_query queryText).length : ℝ))
    (scoresAcc modeloTfidf (split_query queryText)))))

/-- `Buscador._realizar_buscas` (lines 108–152): fold the per-query loop
over the query dict, writing `self.resultados_finais[query_num] = ...`
for every non-skipped query, starting from the current contents of
`self.resultados_finais` (empty in the `executar` pipeline). -/
noncomputable def realizar_buscas (modeloTfidf : List (String × List (Int × ℝ)))
    (normasDocumentos : List (Int × ℝ)) (consultas : List (ℕ × String))
    (resultadosIniciais : List (ℕ × List (ℕ × Int × ℝ))) :
    List (ℕ × List (ℕ × Int × ℝ)) :=
  consultas.foldl (fun resultadosFinais q =>
    match processar_consulta modeloTfidf normasDocumentos q.2 with
    | none => resultadosFinais
    | some r => dictSet resultadosFinais q.1 r) resultadosIniciais

/-- Fields of a `Buscador` instance that `_realizar_buscas` can reach:
the loaded model, the loaded norms, the loaded queries and the result
dict it fills in. -/
structure BuscadorState where
  modeloTfidf : List (String × List (Int × ℝ))
  normasDocumentos : List (Int × ℝ)
  consultas : List (ℕ × String)
  resultadosFinais : List (ℕ × List (ℕ × Int × ℝ))

/-- `Buscador._realizar_buscas` as a transformer of the instance state:
the method's only assignments target `scores_docs` (a per-query local)
and `self.resultados_finais[query_num]`; the model and norm tables are
only read. -/
noncomputable def realizar_buscas_state (st : BuscadorState) : BuscadorState :=
  { modeloTfidf := st.modeloTfidf
    normasDocumentos := st.normasDocumentos
    consultas := st.consultas
    resultadosFinais := realizar_buscas st.modeloTfidf st.normasDocumentos
      st.consultas st.resultadosFinais }

/-! ## Spec-side quantities (for comparison with the code) -/

/-! ## Proof-side reformulations of the accumulation loops -/

/-- Proof-side reformulation: folding a list of (key, contribution)
pairs into a `defaultdict` accumulator with `updAdd`.  Both inner loops
of the Python code (`normas_documentos[doc_id] += peso ** 2` and
`scores_docs[doc_id] += peso * 1`) are instances of this fold over a
flattened contribution stream. -/
noncomputable def foldAdd {α : Type} [DecidableEq α] (acc : List (α × ℝ))
    (cs : List (α × ℝ)) : List (α × ℝ) :=
  cs.foldl (fun a c => updAdd a c.1 c.2) acc

/-- Proof-side reformulation: total contribution a single key receives
from a contribution stream. -/
noncomputable def contribSum {α : Type} [DecidableEq α] (k : α) (cs : List (α × ℝ)) : ℝ :=
  ((cs.filter (fun c => c.1 = k)).map Prod.snd).sum

/-- Proof-side reformulation: the flattened stream of `peso ** 2`
contributions fed to `normas_documentos` by the accumulation loop of
`_calcular_pesos` (lines 130–132), in iteration order. -/
noncomputable def modelContribs (modelo : List (String × List (Int × ℝ))) : List (Int × ℝ) :=
  modelo.flatMap (fun p => p.2.map (fun q => (q.1, q.2 ^ 2)))

/-- Proof-side reformulation: the flattened stream of `peso * 1`
contributions fed to `scores_docs` by the dot-product loop of
`_realizar_buscas` (lines 129–133), in iteration order. -/
noncomputable def queryContribs (modeloTfidf : List (String × List (Int × ℝ)))
    (termos : List String) : List (Int × ℝ) :=
  termos.flatMap (fun t => match dictGet t modeloTfidf with
    | some docs => docs.map (fun q => (q.1, q.2 * 1))
    | none => [])

/-- Following the spec's words (§4.1 step 2, §8): the TF-IDF weight
`(1 + log₁₀ freq(t,d)) × log₁₀ (N / docFreq(t))`. -/
noncomputable def specWeight (n docFreq freq : ℕ) : ℝ :=
  (1 + Real.logb 10 (freq : ℝ)) * Real.logb 10 ((n : ℝ) / (docFreq : ℝ))

/-- Following the spec's words (§8): the sum over every term of the
weight table of `weight(t,d)²` — the full table, not one term's
subset. -/
noncomputable def somaQuadrados (modelo : List (String × List (Int × ℝ))) (d : Int) : ℝ :=
  (modelo.map (fun p => ((p.2.filter (fun q => q.1 = d)).map (fun q => q.2 ^ 2)).sum)).sum

/-- Following the spec's words (§8): the distinct documents that share
at least one weight-table term with the query. -/
def matchingDocs (modeloTfidf : List (String × List (Int × ℝ)))
    (termos : List String) : Finset Int :=
  ((termos.filterMap (fun t => dictGet t modeloTfidf)).flatMap
    (fun docs => docs.map Prod.fst)).toFinset

/-! ## Association-list lemmas -/

theorem dictGet_eq_some_of_mem {α β : Type} [DecidableEq α] {l : List (α × β)} {k : α} {v : β}
    (hnd : (l.map Prod.fst).Nodup) (hm : (k, v) ∈ l) : dictGet k l = some v := by
  induction l with
  | nil => cases hm
  | cons p rest ih =>
    simp only [List.map_cons, List.nodup_cons] at hnd
    rcases List.mem_cons.mp hm with h | h
    · subst h
      simp [dictGet]
    · have hne : p.1 ≠ k := by
        intro he
        exact hnd.1 (he ▸ (List.mem_map.mpr ⟨(k, v), h, rfl⟩))
      simp only [dictGet, if_neg hne]
      exact ih hnd.2 h

theorem mem_of_dictGet_eq_some {α β : Type} [DecidableEq α] {l : List (α × β)} {k : α} {v : β}
    (h : dictGet k l = some v) : (k, v) ∈ l := by
  induction l with
  | nil => simp [dictGet] at h
  | cons p rest ih =>
    by_cases hk : p.1 = k
    · simp only [dictGet, if_pos hk, Option.some.injEq] at h
      exact List.mem_cons.mpr (Or.inl (by rw [← hk, ← h]))
    · simp only [dictGet, if_neg hk] at h
      exact List.mem_cons.mpr (Or.inr (ih h))

theorem dictGet_isSome_iff_mem_keys {α β : Type} [DecidableEq α] {l : List (α × β)} {k : α} :
    (∃ v, dictGet k l = some v) ↔ k ∈ l.map Prod.fst := by
  induction l with
  | nil => simp [dictGet]
  | cons p rest ih =>
    by_cases hk : p.1 = k
    · simp [dictGet, if_pos hk, hk]
    · simp only [dictGet, if_neg hk, List.map_cons, List.mem_cons, ih]
      constructor
      · exact Or.inr
      · rintro (h | h)
        · exact absurd h.symm hk
        · exact h

theorem dictGet_map_snd {α β γ : Type} [DecidableEq α] (g : β → γ) (l : List (α × β)) (k : α) :
    dictGet k (l.map (fun p => (p.1, g p.2))) = (dictGet k l).map g := by
  induction l with
  | nil => simp [dictGet]
  | cons p rest ih =>
    by_cases hk : p.1 = k
    · simp [dictGet, if_pos hk]
    · simp [dictGet, if_neg hk, ih]

theorem dictGet_map_mk {α β : Type} [DecidableEq α] (w : α → β) (ks : List α) (k : α) :
    dictGet k (ks.map (fun a => (a, w a))) = if k ∈ ks then some (w k) else none := by
  induction ks with
  | nil => simp [dictGet]
  | cons a rest ih =>
    by_cases hk : a = k
    · subst hk
      simp [dictGet]
    · simp only [List.map_cons, dictGet, if_neg hk, ih]
      by_cases hm : k ∈ rest
      · rw [if_pos hm, if_pos (List.mem_cons.mpr (Or.inr hm))]
      · have hc : k ∉ a :: rest := by
          intro hc
          rcases List.mem_cons.mp hc with h | h
          · exact hk h.symm
          · exact hm h
        rw [if_neg hm, if_neg hc]

theorem dictGet_dictSet_self {α β : Type} [DecidableEq α] (l : List (α × β)) (k : α) (v : β) :
    dictGet k (dictSet l k v) = some v := by
  induction l with
  | nil => simp [dictSet, dictGet]
  | cons p rest ih =>
    by_cases hk : p.1 = k
    · simp [dictSet, if_pos hk, dictGet]
    · simp [dictSet, if_neg hk, dictGet, ih]

theorem dictGet_dictSet_ne {α β : Type} [DecidableEq α] (l : List (α × β)) {k k' : α} (v : β)
    (hne : k' ≠ k) : dictGet k' (dictSet l k v) = dictGet k' l := by
  have hkk : ¬ (k = k') := fun h => hne h.symm
  induction l with
  | nil => simp [dictSet, dictGet, hkk]
  | cons p rest ih =>
    by_cases hk : p.1 = k
    · simp only [dictSet, if_pos hk, dictGet, if_neg hkk]
      rw [if_neg (show ¬ p.1 = k' from fun h => hne (h ▸ hk))]
    · simp only [dictSet, if_neg hk, dictGet, ih]

/-! ## `firstKeys` lemmas -/

theorem mem_firstKeys {α : Type} [DecidableEq α] {l : List α} {a : α} :
    a ∈ firstKeys l ↔ a ∈ l := by
  induction l using firstKeys.induct with
  | case1 => simp [firstKeys]
  | case2 b rest ih =>
    rw [firstKeys]
    by_cases hab : a = b
    · simp [hab]
    · simp only [List.mem_cons, ih, List.mem_filter]
      constructor
      · rintro (h | h)
        · exact Or.inl h
        · exact Or.inr h.1
      · rintro (h | h)
        · exact Or.inl h
        · exact Or.inr ⟨h, by simpa using hab⟩

theorem nodup_firstKeys {α : Type} [DecidableEq α] (l : List α) : (firstKeys l).Nodup := by
  induction l using firstKeys.induct with
  | case1 => simp [firstKeys]
  | case2 b rest ih =>
    rw [firstKeys]
    refine List.nodup_cons.mpr ⟨?_, ih⟩
    intro hb
    have := (mem_firstKeys.mp hb)
    simp at this

theorem count_pos_of_mem {α : Type} [DecidableEq α] {l : List α} {a : α} (h : a ∈ l) :
    1 ≤ l.count a :=
  List.count_pos_iff.mpr h

/-! ## `updAdd` accumulation theory -/

theorem dictGet_updAdd_self {α : Type} [DecidableEq α] (acc : List (α × ℝ)) (k : α) (x : ℝ) :
    dictGet k (updAdd acc k x) = some ((dictGet k acc).getD 0 + x) := by
  induction acc with
  | nil => simp [updAdd, dictGet]
  | cons p rest ih =>
    by_cases hk : p.1 = k
    · simp [updAdd, if_pos hk, dictGet, hk]
    · simp [updAdd, if_neg hk, dictGet, hk, ih]

theorem dictGet_updAdd_ne {α : Type} [DecidableEq α] (acc : List (α × ℝ)) {k k' : α} (x : ℝ)
    (hne : k' ≠ k) : dictGet k' (updAdd acc k x) = dictGet k' acc := by
  have hkk : ¬ (k = k') := fun h => hne h.symm
  induction acc with
  | nil => simp [updAdd, dictGet, hkk]
  | cons p rest ih =>
    by_cases hk : p.1 = k
    · have hp : ¬ (p.1 = k') := fun h => hne (h ▸ hk)
      simp only [updAdd, if_pos hk, dictGet, if_neg hp]
    · simp only [updAdd, if_neg hk, dictGet, ih]

theorem keys_updAdd {α : Type} [DecidableEq α] (acc : List (α × ℝ)) (k : α) (x : ℝ) :
    (updAdd acc k x).map Prod.fst =
      if k ∈ acc.map Prod.fst then acc.map Prod.fst else acc.map Prod.fst ++ [k] := by
  induction acc with
  | nil => simp [updAdd]
  | cons p rest ih =>
    by_cases hk : p.1 = k
    · simp [updAdd, if_pos hk, hk]
    · have hne : ¬ k = p.1 := fun h => hk h.symm
      simp only [updAdd, if_neg hk, List.map_cons, ih]
      by_cases hm : k ∈ rest.map Prod.fst
      · rw [if_pos hm, if_pos (List.mem_cons.mpr (Or.inr hm))]
      · have hc : k ∉ p.1 :: rest.map Prod.fst := by
          intro hc
          rcases List.mem_cons.mp hc with h | h
          · exact hne h
          · exact hm h
        rw [if_neg hm, if_neg hc]
        simp

theorem mem_keys_updAdd {α : Type} [DecidableEq α] (acc : List (α × ℝ)) (k k' : α) (x : ℝ) :
    k' ∈ (updAdd acc k x).map Prod.fst ↔ k' ∈ acc.map Prod.fst ∨ k' = k := by
  rw [keys_updAdd]
  by_cases hm : k ∈ acc.map Prod.fst
  · simp only [if_pos hm]
    constructor
    · exact Or.inl
    · rintro (h | h)
      · exact h
      · exact h ▸ hm
  · simp [if_neg hm]

theorem nodup_keys_updAdd {α : Type} [DecidableEq α] (acc : List (α × ℝ)) (k : α) (x : ℝ)
    (hnd : (acc.map Prod.fst).Nodup) : ((updAdd acc k x).map Prod.fst).Nodup := by
  rw [keys_updAdd]
  by_cases hm : k ∈ acc.map Prod.fst
  · simpa [if_pos hm] using hnd
  · rw [if_neg hm, List.nodup_append]
    refine ⟨hnd, List.nodup_singleton k, ?_⟩
    intro a ha hb
    rw [List.mem_singleton] at hb
    exact hm (hb ▸ ha)

theorem foldAdd_append {α : Type} [DecidableEq α] (acc : List (α × ℝ))
    (cs ds : List (α × ℝ)) : foldAdd acc (cs ++ ds) = foldAdd (foldAdd acc cs) ds :=
  List.foldl_append _ _ _ _

theorem contribSum_nil {α : Type} [DecidableEq α] (k : α) : contribSum k ([] : List (α × ℝ)) = 0 :=
  rfl

theorem contribSum_cons_self {α : Type} [DecidableEq α] {k : α} {c : α × ℝ}
    (cs : List (α × ℝ)) (hk : c.1 = k) : contribSum k (c :: cs) = c.2 + contribSum k cs := by
  simp [contribSum, List.filter_cons, hk]

theorem contribSum_cons_ne {α : Type} [DecidableEq α] {k : α} {c : α × ℝ}
    (cs : List (α × ℝ)) (hk : ¬ c.1 = k) : contribSum k (c :: cs) = contribSum k cs := by
  simp [contribSum, List.filter_cons, hk]

theorem dictGet_foldAdd_of_some {α : Type} [DecidableEq α] {acc : List (α × ℝ)}
    (cs : List (α × ℝ)) {k : α} {v : ℝ} (h : dictGet k acc = some v) :
    dictGet k (foldAdd acc cs) = some (v + contribSum k cs) := by
  induction cs generalizing acc v with
  | nil => simpa [foldAdd, contribSum] using h
  | cons c rest ih =>
    show dictGet k (foldAdd (updAdd acc c.1 c.2) rest) = _
    by_cases hk : c.1 = k
    · have h1 : dictGet k (updAdd acc c.1 c.2) = some (v + c.2) := by
        rw [hk, dictGet_updAdd_self, h]
        rfl
      rw [ih h1, contribSum_cons_self rest hk, add_assoc]
    · have h1 : dictGet k (updAdd acc c.1 c.2) = some v := by
        rw [dictGet_updAdd_ne acc c.2 (fun he => hk he.symm), h]
      rw [ih h1, contribSum_cons_ne rest hk]

theorem dictGet_foldAdd_of_none {α : Type} [DecidableEq α] {acc : List (α × ℝ)}
    (cs : List (α × ℝ)) {k : α} (h : dictGet k acc = none) (hm : k ∈ cs.map Prod.fst) :
    dictGet k (foldAdd acc cs) = some (contribSum k cs) := by
  induction cs generalizing acc with
  | nil => simp at hm
  | cons c rest ih =>
    show dictGet k (foldAdd (updAdd acc c.1 c.2) rest) = _
    by_cases hk : c.1 = k
    · have h1 : dictGet k (updAdd acc c.1 c.2) = some (0 + c.2) := by
        rw [hk, dictGet_updAdd_self, h]
        rfl
      rw [dictGet_foldAdd_of_some rest h1, contribSum_cons_self rest hk, zero_add]
    · have hm' : k ∈ rest.map Prod.fst := by
        rw [List.map_cons] at hm
        rcases List.mem_cons.mp hm with h' | h'
        · exact absurd h'.symm hk
        · exact h'
      have h1 : dictGet k (updAdd acc c.1 c.2) = none := by
        rw [dictGet_updAdd_ne acc c.2 (fun he => hk he.symm), h]
      rw [ih h1 hm', contribSum_cons_ne rest hk]

theorem mem_keys_foldAdd {α : Type} [DecidableEq α] (acc : List (α × ℝ))
    (cs : List (α × ℝ)) (k : α) :
    k ∈ (foldAdd acc cs).map Prod.fst ↔ k ∈ acc.map Prod.fst ∨ k ∈ cs.map Prod.fst := by
  induction cs generalizing acc with
  | nil => simp [foldAdd]
  | cons c rest ih =>
    rw [foldAdd]
    simp only [List.foldl_cons]
    rw [← foldAdd, ih, mem_keys_updAdd]
    simp only [List.map_cons, List.mem_cons]
    tauto

theorem nodup_keys_foldAdd {α : Type} [DecidableEq α] (acc : List (α × ℝ))
    (cs : List (α × ℝ)) (hnd : (acc.map Prod.fst).Nodup) :
    ((foldAdd acc cs).map Prod.fst).Nodup := by
  induction cs generalizing acc with
  | nil => simpa [foldAdd] using hnd
  | cons c rest ih =>
    rw [foldAdd]
    simp only [List.foldl_cons]
    rw [← foldAdd]
    exact ih _ (nodup_keys_updAdd _ _ _ hnd)

/-! ## Bridges from the embedded code to the fold theory -/

theorem mem_foldl_union (lista : List (String × List Int)) (s : Finset Int) (d : Int) :
    d ∈ lista.foldl (fun s p => s ∪ p.2.toFinset) s ↔ d ∈ s ∨ ∃ p ∈ lista, d ∈ p.2 := by
  induction lista generalizing s with
  | nil => simp
  | cons p rest ih =>
    show d ∈ rest.foldl _ (s ∪ p.2.toFinset) ↔ _
    rw [ih]
    simp only [Finset.mem_union, List.mem_toFinset, List.mem_cons]
    constructor
    · rintro ((h | h) | ⟨q, hq, hd⟩)
      · exact Or.inl h
      · exact Or.inr ⟨p, Or.inl rfl, h⟩
      · exact Or.inr ⟨q, Or.inr hq, hd⟩
    · rintro (h | ⟨q, (hq | hq), hd⟩)
      · exact Or.inl (Or.inl h)
      · exact Or.inl (Or.inr (hq ▸ hd))
      · exact Or.inr ⟨q, hq, hd⟩

theorem mem_documentos {lista : List (String × List Int)} {d : Int} :
    d ∈ documentos lista ↔ ∃ p ∈ lista, d ∈ p.2 := by
  rw [documentos, mem_foldl_union]
  simp

theorem documentos_card_ne_zero {lista : List (String × List Int)} {t : String}
    {L : List Int} {d : Int} (ht : (t, L) ∈ lista) (hd : d ∈ L) :
    (documentos lista).card ≠ 0 := by
  have hmem : d ∈ documentos lista := mem_documentos.mpr ⟨(t, L), ht, hd⟩
  intro hc
  rw [Finset.card_eq_zero] at hc
  rw [hc] at hmem
  exact absurd hmem (Finset.not_mem_empty d)

theorem foldl_updAdd_sq (l : List (Int × ℝ)) (acc : List (Int × ℝ)) :
    l.foldl (fun a q => updAdd a q.1 (q.2 ^ 2)) acc =
      foldAdd acc (l.map (fun q => (q.1, q.2 ^ 2))) := by
  induction l generalizing acc with
  | nil => rfl
  | cons q rest ih => exact ih _

theorem foldl_updAdd_mul (l : List (Int × ℝ)) (acc : List (Int × ℝ)) :
    l.foldl (fun a q => updAdd a q.1 (q.2 * 1)) acc =
      foldAdd acc (l.map (fun q => (q.1, q.2 * 1))) := by
  induction l generalizing acc with
  | nil => rfl
  | cons q rest ih => exact ih _

theorem modelContribs_cons (p : String × List (Int × ℝ))
    (rest : List (String × List (Int × ℝ))) :
    modelContribs (p :: rest) =
      p.2.map (fun q => (q.1, q.2 ^ 2)) ++ modelContribs rest := by
  rw [modelContribs, List.flatMap_cons, ← modelContribs]

theorem queryContribs_cons (modeloTfidf : List (String × List (Int × ℝ))) (t : String)
    (rest : List String) :
    queryContribs modeloTfidf (t :: rest) =
      (match dictGet t modeloTfidf with
       | some docs => docs.map (fun q => (q.1, q.2 * 1))
       | none => []) ++ queryContribs modeloTfidf rest := by
  rw [queryContribs, List.flatMap_cons, ← queryContribs]

theorem somaQuadrados_cons (p : String × List (Int × ℝ))
    (rest : List (String × List (Int × ℝ))) (d : Int) :
    somaQuadrados (p :: rest) d =
      ((p.2.filter (fun q => q.1 = d)).map (fun q => q.2 ^ 2)).sum + somaQuadrados rest d := by
  rw [somaQuadrados, List.map_cons, List.sum_cons, ← somaQuadrados]

theorem dictGet_nil {α β : Type} [DecidableEq α] (k : α) :
    dictGet k ([] : List (α × β)) = none :=
  rfl

theorem normasQuadradas_general (modelo : List (String × List (Int × ℝ)))
    (acc : List (Int × ℝ)) :
    modelo.foldl (fun acc p => p.2.foldl (fun a q => updAdd a q.1 (q.2 ^ 2)) acc) acc =
      foldAdd acc (modelContribs modelo) := by
  induction modelo generalizing acc with
  | nil => rfl
  | cons p rest ih =>
    rw [List.foldl_cons, modelContribs_cons, foldAdd_append]
    simp only [ih]
    rw [foldl_updAdd_sq]

theorem normasQuadradas_eq (modelo : List (String × List (Int × ℝ))) :
    normasQuadradas modelo = foldAdd [] (modelContribs modelo) :=
  normasQuadradas_general modelo []

theorem scoresAcc_general (modeloTfidf : List (String × List (Int × ℝ)))
    (termos : List String) (acc : List (Int × ℝ)) :
    termos.foldl (fun scoresDocs termo =>
      match dictGet termo modeloTfidf with
      | some docs => docs.foldl (fun a q => updAdd a q.1 (q.2 * 1)) scoresDocs
      | none => scoresDocs) acc = foldAdd acc (queryContribs modeloTfidf termos) := by
  induction termos generalizing acc with
  | nil => rfl
  | cons t rest ih =>
    rw [List.foldl_cons, queryContribs_cons modeloTfidf t rest, foldAdd_append]
    cases h : dictGet t modeloTfidf with
    | none =>
      simp only [h, ih]
      rfl
    | some docs =>
      simp only [h, ih]
      rw [foldl_updAdd_mul]

theorem scoresAcc_eq (modeloTfidf : List (String × List (Int × ℝ))) (termos : List String) :
    scoresAcc modeloTfidf termos = foldAdd [] (queryContribs modeloTfidf termos) :=
  scoresAcc_general modeloTfidf termos []

theorem contribSum_append {α : Type} [DecidableEq α] (k : α) (cs ds : List (α × ℝ)) :
    contribSum k (cs ++ ds) = contribSum k cs + contribSum k ds := by
  simp [contribSum, List.filter_append]

theorem contribSum_modelContribs (modelo : List (String × List (Int × ℝ))) (d : Int) :
    contribSum d (modelContribs modelo) = somaQuadrados modelo d := by
  induction modelo with
  | nil => simp [contribSum, modelContribs, somaQuadrados]
  | cons p rest ih =>
    rw [modelContribs_cons, contribSum_append, ih, somaQuadrados_cons]
    have hterm : contribSum d (p.2.map (fun q => (q.1, q.2 ^ 2))) =
        ((p.2.filter (fun q => q.1 = d)).map (fun q => q.2 ^ 2)).sum := by
      simp [contribSum, List.filter_map, List.map_map, Function.comp_def]
    rw [hterm]

theorem mem_queryContribs_fst {modeloTfidf : List (String × List (Int × ℝ))}
    {termos : List String} {d : Int} :
    d ∈ (queryContribs modeloTfidf termos).map Prod.fst ↔
      d ∈ matchingDocs modeloTfidf termos := by
  simp only [matchingDocs, List.mem_toFinset, queryContribs, List.map_flatMap,
    List.mem_flatMap, List.mem_filterMap]
  constructor
  · rintro ⟨t, ht, hd⟩
    cases h : dictGet t modeloTfidf with
    | none => rw [h] at hd; simp at hd
    | some docs =>
      rw [h] at hd
      refine ⟨docs, ⟨t, ht, h⟩, ?_⟩
      simpa [List.map_map, Function.comp] using hd
  · rintro ⟨docs, ⟨t, ht, h⟩, hd⟩
    refine ⟨t, ht, ?_⟩
    rw [h]
    simpa [List.map_map, Function.comp] using hd

theorem mem_scoresAcc_fst {modeloTfidf : List (String × List (Int × ℝ))}
    {termos : List String} {d : Int} :
    d ∈ (scoresAcc modeloTfidf termos).map Prod.fst ↔ d ∈ matchingDocs modeloTfidf termos := by
  rw [scoresAcc_eq, mem_keys_foldAdd, ← mem_queryContribs_fst]
  simp

theorem nodup_scoresAcc_fst (modeloTfidf : List (String × List (Int × ℝ)))
    (termos : List String) : ((scoresAcc modeloTfidf termos).map Prod.fst).Nodup := by
  rw [scoresAcc_eq]
  exact nodup_keys_foldAdd [] _ (by simp)

/-! ## Lookup lemmas for the Indexador tables -/

theorem dictGet_modeloDe {lista : List (String × List Int)} {t : String} {L : List Int}
    (hnd : (lista.map Prod.fst).Nodup) (ht : (t, L) ∈ lista) :
    dictGet t (modeloDe lista) = some (pesosTermo (documentos lista).card L) := by
  rw [modeloDe, dictGet_map_snd, dictGet_eq_some_of_mem hnd ht]
  rfl

theorem dictGet_pesosTermo {L : List Int} {d : Int} (hd : d ∈ L) (N : ℕ) :
    dictGet d (pesosTermo N L) = some ((1 + Real.logb 10 ((L.count d : ℕ) : ℝ)) *
      Real.logb 10 ((N : ℝ) / ((L.toFinset.card : ℕ) : ℝ))) := by
  rw [pesosTermo, dictGet_map_mk, if_pos (mem_firstKeys.mpr hd)]

theorem dictGet_normasDe {modelo : List (String × List (Int × ℝ))} {d : Int}
    (hd : d ∈ (modelContribs modelo).map Prod.fst) :
    dictGet d (normasDe modelo) = some (Real.sqrt (somaQuadrados modelo d)) := by
  rw [normasDe, dictGet_map_snd, normasQuadradas_eq,
    dictGet_foldAdd_of_none _ (dictGet_nil d) hd, Option.map_some', contribSum_modelContribs]

theorem mem_modelContribs_fst {modelo : List (String × List (Int × ℝ))} {d : Int} :
    d ∈ (modelContribs modelo).map Prod.fst ↔ ∃ p ∈ modelo, d ∈ p.2.map Prod.fst := by
  simp only [modelContribs, List.map_flatMap, List.mem_flatMap, List.map_map]
  constructor
  · rintro ⟨p, hp, hd⟩
    exact ⟨p, hp, by simpa [Function.comp] using hd⟩
  · rintro ⟨p, hp, hd⟩
    exact ⟨p, hp, by simpa [Function.comp] using hd⟩

theorem nodup_normasDe_fst (modelo : List (String × List (Int × ℝ))) :
    ((normasDe modelo).map Prod.fst).Nodup := by
  have h : (normasDe modelo).map Prod.fst = (normasQuadradas modelo).map Prod.fst := by
    rw [normasDe, List.map_map]
    rfl
  rw [h, normasQuadradas_eq]
  exact nodup_keys_foldAdd [] _ (by simp)

/-! ## Retrieval-side helper lemmas -/

theorem processar_consulta_none_of_empty {modeloTfidf : List (String × List (Int × ℝ))}
    {normasDocumentos : List (Int × ℝ)} {texto : String}
    (h : split_query texto = []) :
    processar_consulta modeloTfidf normasDocumentos texto = none := by
  rw [processar_consulta, h]
  simp

theorem processar_consulta_some {modeloTfidf : List (String × List (Int × ℝ))}
    {normasDocumentos : List (Int × ℝ)} {texto : String}
    (h : split_query texto ≠ []) :
    processar_consulta modeloTfidf normasDocumentos texto =
      some (formatar (rankear (normalizar normasDocumentos
        (Real.sqrt (((split_query texto).length : ℕ) : ℝ))
        (scoresAcc modeloTfidf (split_query texto))))) := by
  have hl : 0 < (split_query texto).length := List.length_pos.mpr h
  have hpos : (0 : ℝ) < Real.sqrt (((split_query texto).length : ℕ) : ℝ) :=
    Real.sqrt_pos.mpr (by exact_mod_cast hl)
  rw [processar_consulta, if_neg (ne_of_gt hpos)]

theorem normalizar_map_fst (normasDocumentos : List (Int × ℝ)) (normaConsulta : ℝ)
    (scoresDocs : List (Int × ℝ)) :
    (normalizar normasDocumentos normaConsulta scoresDocs).map Prod.fst =
      scoresDocs.map Prod.fst := by
  rw [normalizar, List.map_map]
  refine List.map_congr_left ?_
  intro p _
  by_cases hp : ((dictGet p.1 normasDocumentos).getD 1) > 0
  · simp [hp]
  · simp [hp]

theorem normalizar_length (normasDocumentos : List (Int × ℝ)) (normaConsulta : ℝ)
    (scoresDocs : List (Int × ℝ)) :
    (normalizar normasDocumentos normaConsulta scoresDocs).length = scoresDocs.length := by
  simp [normalizar]

theorem rankear_perm (scoresDocs : List (Int × ℝ)) : (rankear scoresDocs).Perm scoresDocs :=
  List.mergeSort_perm scoresDocs _

theorem rankear_pairwise (scoresDocs : List (Int × ℝ)) :
    List.Pairwise (fun a b : Int × ℝ => b.2 ≤ a.2) (rankear scoresDocs) := by
  have h := @List.sorted_mergeSort (Int × ℝ) (fun a b => decide (b.2 ≤ a.2))
    (fun a b c h1 h2 => by
      simp only [decide_eq_true_eq] at h1 h2 ⊢
      exact le_trans h2 h1)
    (fun a b => by
      simp only [Bool.or_eq_true, decide_eq_true_eq]
      exact le_total b.2 a.2)
    scoresDocs
  exact h.imp (by intro a b hab; simpa using hab)

theorem formatar_map_snd (l : List (Int × ℝ)) : (formatar l).map (fun r => r.2) = l := by
  rw [formatar, List.map_map]
  have : ((fun r : ℕ × Int × ℝ => r.2) ∘ fun q : ℕ × (Int × ℝ) => (q.1 + 1, q.2.1, q.2.2)) =
      Prod.snd := by
    funext q
    simp
  rw [this, List.enum_map_snd]

theorem enumFrom_map_fst_succ {α : Type} (l : List α) (i : ℕ) :
    (List.enumFrom i l).map (fun q => q.1 + 1) = List.range' (i + 1) l.length := by
  induction l generalizing i with
  | nil => simp
  | cons a rest ih => simp [List.enumFrom, List.range'_succ, ih]

theorem formatar_map_fst (l : List (Int × ℝ)) :
    (formatar l).map Prod.fst = List.range' 1 l.length := by
  rw [formatar, List.map_map]
  have h1 : (Prod.fst ∘ fun q : ℕ × (Int × ℝ) => (q.1 + 1, q.2.1, q.2.2)) =
      (fun q : ℕ × (Int × ℝ) => q.1 + 1) := by
    funext q
    simp
  rw [h1]
  have h2 : l.enum = List.enumFrom 0 l := rfl
  rw [h2, enumFrom_map_fst_succ, Nat.zero_add]

theorem formatar_length (l : List (Int × ℝ)) : (formatar l).length = l.length := by
  simp [formatar]

theorem formatar_pairwise {l : List (Int × ℝ)}
    (h : List.Pairwise (fun a b : Int × ℝ => b.2 ≤ a.2) l) :
    List.Pairwise (fun a b : ℕ × Int × ℝ => b.2.2 ≤ a.2.2) (formatar l) := by
  have h' : List.Pairwise (fun a b : Int × ℝ => b.2 ≤ a.2)
      ((formatar l).map (fun r => r.2)) := by
    rw [formatar_map_snd]
    exact h
  exact (List.pairwise_map.mp h').imp (fun hab => hab)

theorem mem_formatar_snd {l : List (Int × ℝ)} {x : Int × ℝ} (h : x ∈ l) :
    x ∈ (formatar l).map (fun r => r.2) := by
  rw [formatar_map_snd]
  exact h

theorem realizar_buscas_cons (modeloTfidf : List (String × List (Int × ℝ)))
    (normasDocumentos : List (Int × ℝ)) (q : ℕ × String) (cs : List (ℕ × String))
    (res : List (ℕ × List (ℕ × Int × ℝ))) :
    realizar_buscas modeloTfidf normasDocumentos (q :: cs) res =
      realizar_buscas modeloTfidf normasDocumentos cs
        (match processar_consulta modeloTfidf normasDocumentos q.2 with
         | none => res
         | some r => dictSet res q.1 r) :=
  rfl

theorem dictGet_realizar_buscas_not_mem {modeloTfidf : List (String × List (Int × ℝ))}
    {normasDocumentos : List (Int × ℝ)} {cs : List (ℕ × String)}
    {res : List (ℕ × List (ℕ × Int × ℝ))} {qn : ℕ}
    (hq : qn ∉ cs.map Prod.fst) :
    dictGet qn (realizar_buscas modeloTfidf normasDocumentos cs res) = dictGet qn res := by
  induction cs generalizing res with
  | nil => rfl
  | cons q rest ih =>
    rw [List.map_cons] at hq
    have hne : qn ≠ q.1 := fun h => hq (List.mem_cons.mpr (Or.inl h))
    have hrest : qn ∉ rest.map Prod.fst := fun h => hq (List.mem_cons.mpr (Or.inr h))
    rw [realizar_buscas_cons]
    cases hp : processar_consulta modeloTfidf normasDocumentos q.2 with
    | none =>
      simp only [hp]
      exact ih hrest
    | some r =>
      simp only [hp]
      rw [ih hrest, dictGet_dictSet_ne _ _ hne]

theorem dictGet_realizar_buscas {modeloTfidf : List (String × List (Int × ℝ))}
    {normasDocumentos : List (Int × ℝ)} {cs : List (ℕ × String)}
    {res : List (ℕ × List (ℕ × Int × ℝ))} {qn : ℕ} {texto : String}
    (hnd : (cs.map Prod.fst).Nodup) (hmem : (qn, texto) ∈ cs)
    (hres : dictGet qn res = none) :
    dictGet qn (realizar_buscas modeloTfidf normasDocumentos cs res) =
      processar_consulta modeloTfidf normasDocumentos texto := by
  induction cs generalizing res with
  | nil => cases hmem
  | cons q rest ih =>
    rw [List.map_cons, List.nodup_cons] at hnd
    rcases List.mem_cons.mp hmem with hq | hq
    · have hq1 : q.1 = qn := by rw [← hq]
      have hq2 : q.2 = texto := by rw [← hq]
      have hqn : qn ∉ rest.map Prod.fst := hq1 ▸ hnd.1
      rw [realizar_buscas_cons]
      cases hp : processar_consulta modeloTfidf normasDocumentos q.2 with
      | none =>
        simp only [hp]
        rw [dictGet_realizar_buscas_not_mem hqn, hres, ← hq2, hp]
      | some r =>
        simp only [hp]
        rw [dictGet_realizar_buscas_not_mem hqn, ← hq1, dictGet_dictSet_self, ← hq2, hp]
    · have hne : qn ≠ q.1 := by
        intro h
        exact hnd.1 (h ▸ (List.mem_map.mpr ⟨(qn, texto), hq, rfl⟩))
      rw [realizar_buscas_cons]
      cases hp : processar_consulta modeloTfidf normasDocumentos q.2 with
      | none =>
        simp only [hp]
        exact ih hnd.2 hq hres
      | some r =>
        simp only [hp]
        exact ih hnd.2 hq (by rw [dictGet_dictSet_ne _ _ hne, hres])

theorem formatar_map_doc (l : List (Int × ℝ)) :
    (formatar l).map (fun r => r.2.1) = l.map Prod.fst := by
  have h := congrArg (List.map Prod.fst) (formatar_map_snd l)
  rw [List.map_map] at h
  exact h

theorem formatar_map_score (l : List (Int × ℝ)) :
    (formatar l).map (fun r => r.2.2) = l.map Prod.snd := by
  have h := congrArg (List.map Prod.snd) (formatar_map_snd l)
  rw [List.map_map] at h
  exact h

/-! ## Concrete evaluation of the pipeline on the list `[("A", [1, 2])]`
(one term occurring once in each of the two documents: idf = 0, so both
stored weights and both norms are 0). -/

theorem lista3_modelo :
    (calcular_pesos [("A", [(1 : Int), 2])]).1 =
      [("A", [((1 : Int), (0 : ℝ)), (2, 0)])] := by
  rw [calcular_pesos, if_neg (by decide)]
  have hcard : (documentos [("A", [(1 : Int), 2])]).card = 2 := by decide
  simp [modeloDe, pesosTermo, hcard, firstKeys]

theorem lista3_normas :
    (calcular_pesos [("A", [(1 : Int), 2])]).2 = [((1 : Int), (0 : ℝ)), (2, 0)] := by
  have hcard : (documentos [("A", [(1 : Int), 2])]).card = 2 := by decide
  have hmm : modeloDe [("A", [(1 : Int), 2])] = [("A", [((1 : Int), (0 : ℝ)), (2, 0)])] := by
    simp [modeloDe, pesosTermo, hcard, firstKeys]
  rw [calcular_pesos, if_neg (by decide), hmm]
  simp [normasDe, normasQuadradas, updAdd]

theorem lista3_run :
    realizar_buscas (calcular_pesos [("A", [(1 : Int), 2])]).1
      (calcular_pesos [("A", [(1 : Int), 2])]).2 [(1, "A")] [] =
      [(1, formatar (rankear [((1 : Int), (0 : ℝ)), (2, 0)]))] := by
  rw [lista3_modelo, lista3_normas]
  have hs : split_query "A" = ["A"] := by decide
  have hscores : scoresAcc [("A", [((1 : Int), (0 : ℝ)), (2, 0)])] (split_query "A") =
      [((1 : Int), (0 : ℝ)), (2, 0)] := by
    rw [hs]
    simp [scoresAcc, dictGet, updAdd]
  have hnorm : ∀ nq : ℝ, normalizar [((1 : Int), (0 : ℝ)), (2, 0)] nq
      [((1 : Int), (0 : ℝ)), (2, 0)] = [((1 : Int), (0 : ℝ)), (2, 0)] := by
    intro nq
    simp [normalizar, dictGet]
  have hproc : processar_consulta [("A", [((1 : Int), (0 : ℝ)), (2, 0)])]
      [((1 : Int), (0 : ℝ)), (2, 0)] "A" =
      some (formatar (rankear [((1 : Int), (0 : ℝ)), (2, 0)])) := by
    rw [processar_consulta_some (by decide), hscores, hnorm]
  rw [realizar_buscas_cons]
  simp only [hproc]
  rfl

/-! ## Claim theorems -/

/-- C1: for every term `t` in the inverted list and every document id
`d` occurring in `t`'s occurrence sequence, the Indexer's weight table
stores `weight(t,d) = (1 + log₁₀ freq(t,d)) · log₁₀ (N / docFreq(t))`,
where `N` is the number of distinct document ids in the whole inverted
list, `docFreq(t)` the number of distinct ids in `t`'s sequence, and
`freq(t,d) ≥ 1` the number of occurrences of `d` in `t`'s sequence. -/
theorem C1_weight_formula (lista : List (String × List Int)) (t : String) (L : List Int)
    (d : Int) (hnd : (lista.map Prod.fst).Nodup) (ht : (t, L) ∈ lista) (hd : d ∈ L) :
    1 ≤ L.count d ∧
    ∃ docs, dictGet t (calcular_pesos lista).1 = some docs ∧
      dictGet d docs =
        some (specWeight (documentos lista).card L.toFinset.card (L.count d)) := by
  have hN := documentos_card_ne_zero ht hd
  rw [calcular_pesos, if_neg hN]
  refine ⟨count_pos_of_mem hd, pesosTermo (documentos lista).card L,
    dictGet_modeloDe hnd ht, ?_⟩
  rw [dictGet_pesosTermo hd]
  rfl

/-- Witness for C1 at the one-term inverted list `[("DOG", [2])]`. -/
theorem C1_witness :
    ((([("DOG", [2])] : List (String × List Int)).map Prod.fst).Nodup ∧
      ("DOG", [2]) ∈ ([("DOG", [2])] : List (String × List Int)) ∧ (2 : Int) ∈ [(2 : Int)]) ∧
    (1 ≤ [(2 : Int)].count 2 ∧
      ∃ docs, dictGet "DOG" (calcular_pesos [("DOG", [2])]).1 = some docs ∧
        dictGet 2 docs = some (specWeight (documentos [("DOG", [2])]).card
          [(2 : Int)].toFinset.card ([(2 : Int)].count 2))) :=
  ⟨⟨by decide, by decide, by decide⟩,
    C1_weight_formula [("DOG", [2])] "DOG" [2] 2 (by decide) (by decide) (by decide)⟩

/-- C2: every document id appearing in the weight table has exactly one
entry in the norm table (the key list has no duplicates and the lookup
succeeds), and that entry is the square root of the sum of
`weight(t,d)²` over all terms of the full weight table referencing `d`
— the totals of the second pass, not one term's subset. -/
theorem C2_norm_table (lista : List (String × List Int)) (d : Int)
    (hd : ∃ p ∈ (calcular_pesos lista).1, d ∈ p.2.map Prod.fst) :
    (((calcular_pesos lista).2).map Prod.fst).Nodup ∧
    dictGet d (calcular_pesos lista).2 =
      some (Real.sqrt (somaQuadrados (calcular_pesos lista).1 d)) := by
  by_cases hN : (documentos lista).card = 0
  · rw [calcular_pesos, if_pos hN] at hd
    simp at hd
  · rw [calcular_pesos, if_neg hN] at hd ⊢
    exact ⟨nodup_normasDe_fst _, dictGet_normasDe (mem_modelContribs_fst.mpr hd)⟩

/-- Witness for C2 at the one-term inverted list `[("DOG", [2])]`. -/
theorem C2_witness :
    (∃ p ∈ (calcular_pesos [("DOG", [2])]).1, (2 : Int) ∈ p.2.map Prod.fst) ∧
    ((((calcular_pesos [("DOG", [2])]).2).map Prod.fst).Nodup ∧
      dictGet 2 (calcular_pesos [("DOG", [2])]).2 =
        some (Real.sqrt (somaQuadrados (calcular_pesos [("DOG", [2])]).1 2))) := by
  have hd : ∃ p ∈ (calcular_pesos [("DOG", [2])]).1, (2 : Int) ∈ p.2.map Prod.fst := by
    rw [calcular_pesos, if_neg (by decide)]
    refine ⟨("DOG", pesosTermo (documentos [("DOG", [2])]).card [2]), ?_, ?_⟩
    · simp [modeloDe]
    · simp [pesosTermo, firstKeys]
  exact ⟨hd, C2_norm_table [("DOG", [2])] 2 hd⟩

/-- C7: a query whose normalized text tokenizes to zero terms is
skipped entirely — it contributes no entry at all to the ranked-result
output. -/
theorem C7_empty_query_skipped (modeloTfidf : List (String × List (Int × ℝ)))
    (normasDocumentos : List (Int × ℝ)) (consultas : List (ℕ × String))
    (qn : ℕ) (texto : String)
    (hnd : (consultas.map Prod.fst).Nodup) (hmem : (qn, texto) ∈ consultas)
    (hempty : split_query texto = []) :
    dictGet qn (realizar_buscas modeloTfidf normasDocumentos consultas []) = none := by
  rw [dictGet_realizar_buscas hnd hmem (dictGet_nil qn)]
  exact processar_consulta_none_of_empty hempty

/-- Witness for C7 at the single empty-text query `(1, "")`. -/
theorem C7_witness :
    (([((1 : ℕ), "")].map Prod.fst).Nodup ∧ ((1 : ℕ), "") ∈ [((1 : ℕ), "")] ∧
      split_query "" = []) ∧
    dictGet 1 (realizar_buscas [] [] [((1 : ℕ), "")] []) = none :=
  ⟨⟨by decide, by decide, by decide⟩,
    C7_empty_query_skipped [] [] [(1, "")] 1 "" (by decide) (by decide) (by decide)⟩

/-- C4: for every query with at least one token and at least one term
present in the weight table, the ranked list is sorted non-increasing
by score, its rank positions are exactly `1..k` in order with no gaps,
and `k` equals the number of distinct documents sharing at least one
weight-table term with the query. -/
theorem C4_ranked_list_shape (modeloTfidf : List (String × List (Int × ℝ)))
    (normasDocumentos : List (Int × ℝ)) (texto : String)
    (htok : split_query texto ≠ [])
    (hmatch : ∃ t ∈ split_query texto, dictGet t modeloTfidf ≠ none) :
    ∃ fmt, processar_consulta modeloTfidf normasDocumentos texto = some fmt ∧
      List.Pairwise (fun a b : ℕ × Int × ℝ => b.2.2 ≤ a.2.2) fmt ∧
      fmt.map Prod.fst = List.range' 1 fmt.length ∧
      fmt.length = (matchingDocs modeloTfidf (split_query texto)).card := by
  rw [processar_consulta_some htok]
  refine ⟨_, rfl, formatar_pairwise (rankear_pairwise _), ?_, ?_⟩
  · rw [formatar_map_fst, formatar_length]
  · rw [formatar_length, (rankear_perm _).length_eq, normalizar_length]
    have hnd := nodup_scoresAcc_fst modeloTfidf (split_query texto)
    have hset : ((scoresAcc modeloTfidf (split_query texto)).map Prod.fst).toFinset =
        matchingDocs modeloTfidf (split_query texto) := by
      ext a
      rw [List.mem_toFinset]
      exact mem_scoresAcc_fst
    calc (scoresAcc modeloTfidf (split_query texto)).length
        = ((scoresAcc modeloTfidf (split_query texto)).map Prod.fst).length :=
          (List.length_map _ _).symm
      _ = ((scoresAcc modeloTfidf (split_query texto)).map Prod.fst).toFinset.card :=
          (List.toFinset_card_of_nodup hnd).symm
      _ = (matchingDocs modeloTfidf (split_query texto)).card := by rw [hset]

/-- Witness for C4 at the query `"DOG"` and a one-term weight table. -/
theorem C4_witness :
    (split_query "DOG" ≠ [] ∧ ∃ t ∈ split_query "DOG",
      dictGet t [("DOG", [((2 : Int), (1 : ℝ))])] ≠ none) ∧
    ∃ fmt, processar_consulta [("DOG", [((2 : Int), (1 : ℝ))])] [] "DOG" = some fmt ∧
      List.Pairwise (fun a b : ℕ × Int × ℝ => b.2.2 ≤ a.2.2) fmt ∧
      fmt.map Prod.fst = List.range' 1 fmt.length ∧
      fmt.length = (matchingDocs [("DOG", [((2 : Int), (1 : ℝ))])] (split_query "DOG")).card := by
  have h1 : split_query "DOG" ≠ [] := by decide
  have h2 : ∃ t ∈ split_query "DOG", dictGet t [("DOG", [((2 : Int), (1 : ℝ))])] ≠ none := by
    refine ⟨"DOG", by decide, ?_⟩
    simp [dictGet]
  exact ⟨⟨h1, h2⟩, C4_ranked_list_shape _ [] "DOG" h1 h2⟩

/-- C5 (amended): the ranked result sequence of every query is sorted
non-increasing by similarity score; ties are possible (equal scores
stay adjacent in accumulation order), so the order is not strict. -/
theorem C5_amended_sorted (modeloTfidf : List (String × List (Int × ℝ)))
    (normasDocumentos : List (Int × ℝ)) (texto : String) (fmt : List (ℕ × Int × ℝ))
    (h : processar_consulta modeloTfidf normasDocumentos texto = some fmt) :
    List.Pairwise (fun a b : ℕ × Int × ℝ => b.2.2 ≤ a.2.2) fmt := by
  by_cases htok : split_query texto = []
  · rw [processar_consulta_none_of_empty htok] at h
    cases h
  · rw [processar_consulta_some htok] at h
    have hfmt := Option.some_inj.mp h
    rw [← hfmt]
    exact formatar_pairwise (rankear_pairwise _)

/-- Witness for C5 (amended) at the query `"A"` over an empty model. -/
theorem C5_amended_witness :
    processar_consulta [] [] "A" = some [] ∧
    List.Pairwise (fun a b : ℕ × Int × ℝ => b.2.2 ≤ a.2.2) ([] : List (ℕ × Int × ℝ)) := by
  have h : processar_consulta [] [] "A" = some [] := by
    rw [processar_consulta_some (by decide)]
    have hs : split_query "A" = ["A"] := by decide
    rw [hs]
    simp [scoresAcc, dictGet, normalizar, rankear, List.mergeSort_nil, formatar]
  exact ⟨h, C5_amended_sorted [] [] "A" [] h⟩

/-- C9: retrieval never mutates the Model — running the scoring phase
over any query set leaves the weight table and the norm table of the
`Buscador` state exactly as they were. -/
theorem C9_model_not_mutated (st : BuscadorState) :
    (realizar_buscas_state st).modeloTfidf = st.modeloTfidf ∧
    (realizar_buscas_state st).normasDocumentos = st.normasDocumentos :=
  ⟨rfl, rfl⟩

/-- C3 (counterexample): on the inverted list `[("A", [1, 2])]` the
stored norm of document 1 is exactly 0, yet document 1 appears in the
ranked output of the query `"A"` — documents with a zero stored norm
are not excluded from results. -/
theorem C3_counterexample :
    dictGet (1 : Int) (calcular_pesos [("A", [(1 : Int), 2])]).2 = some 0 ∧
    (1 : Int) ∈ ((realizar_buscas (calcular_pesos [("A", [(1 : Int), 2])]).1
        (calcular_pesos [("A", [(1 : Int), 2])]).2 [(1, "A")] []).flatMap
      (fun q => q.2.map (fun r => r.2.1))) := by
  constructor
  · rw [lista3_normas]
    simp [dictGet]
  · rw [lista3_run]
    simp only [List.flatMap_cons, List.flatMap_nil, List.append_nil]
    rw [formatar_map_doc]
    rw [((rankear_perm [((1 : Int), (0 : ℝ)), (2, 0)]).map Prod.fst).mem_iff]
    simp

/-- C3 (amended): a scored document whose stored norm is exactly 0 is
not excluded: the Retriever merely skips the normalization for it, so
it appears in the ranked results carrying its raw accumulated score. -/
theorem C3_amended_zero_norm_kept (modeloTfidf : List (String × List (Int × ℝ)))
    (normasDocumentos : List (Int × ℝ)) (texto : String) (d : Int) (raw : ℝ)
    (hd : dictGet d (scoresAcc modeloTfidf (split_query texto)) = some raw)
    (h0 : dictGet d normasDocumentos = some 0) :
    ∃ fmt, processar_consulta modeloTfidf normasDocumentos texto = some fmt ∧
      (d, raw) ∈ fmt.map (fun r => r.2) := by
  have htok : split_query texto ≠ [] := by
    intro he
    rw [he] at hd
    simp [scoresAcc, dictGet] at hd
  rw [processar_consulta_some htok]
  refine ⟨_, rfl, ?_⟩
  rw [formatar_map_snd]
  refine ((rankear_perm _).mem_iff).mpr ?_
  rw [normalizar]
  refine List.mem_map.mpr ⟨(d, raw), mem_of_dictGet_eq_some hd, ?_⟩
  simp [h0]

/-- Witness for C3 (amended): document 1 has stored norm 0 and raw
score 5 for the query `"A"`; it is ranked with score 5 unchanged. -/
theorem C3_amended_witness :
    (dictGet (1 : Int) (scoresAcc [("A", [((1 : Int), (5 : ℝ))])] (split_query "A")) =
        some 5 ∧
      dictGet (1 : Int) [((1 : Int), (0 : ℝ))] = some 0) ∧
    ∃ fmt, processar_consulta [("A", [((1 : Int), (5 : ℝ))])] [((1 : Int), (0 : ℝ))] "A" =
        some fmt ∧ ((1 : Int), (5 : ℝ)) ∈ fmt.map (fun r => r.2) := by
  have hd : dictGet (1 : Int) (scoresAcc [("A", [((1 : Int), (5 : ℝ))])] (split_query "A")) =
      some 5 := by
    have hs : split_query "A" = ["A"] := by decide
    rw [hs]
    simp [scoresAcc, dictGet, updAdd]
  have h0 : dictGet (1 : Int) [((1 : Int), (0 : ℝ))] = some 0 := by
    simp [dictGet]
  exact ⟨⟨hd, h0⟩, C3_amended_zero_norm_kept _ _ "A" 1 5 hd h0⟩

/-- C5 (counterexample): on the inverted list `[("A", [1, 2])]` the
query `"A"` returns two ranked entries whose scores are both 0 — the
result sequence is not strictly descending and does contain two entries
with equal scores. -/
theorem C5_counterexample :
    ((realizar_buscas (calcular_pesos [("A", [(1 : Int), 2])]).1
        (calcular_pesos [("A", [(1 : Int), 2])]).2 [(1, "A")] []).flatMap
      (fun q => q.2.map (fun r => r.2.2))) = [0, 0] := by
  rw [lista3_run]
  simp only [List.flatMap_cons, List.flatMap_nil, List.append_nil]
  rw [formatar_map_score]
  have hperm := (rankear_perm [((1 : Int), (0 : ℝ)), (2, 0)]).map Prod.snd
  rw [show [(0 : ℝ), 0] = List.replicate 2 (0 : ℝ) from rfl, List.eq_replicate_iff]
  constructor
  · rw [hperm.length_eq]
    rfl
  · intro b hb
    have hb2 := hperm.mem_iff.mp hb
    simpa using hb2

/-- C6 (counterexample): on the inverted list `[("A", [1])]` the term
occurs in every document, so idf = 0 and the weight table stores the
pair `("A", 1)` with weight exactly 0 — a stored weight that is not
strictly positive. -/
theorem C6_counterexample :
    (calcular_pesos [("A", [(1 : Int)])]).1 = [("A", [((1 : Int), (0 : ℝ))])] := by
  rw [calcular_pesos, if_neg (by decide)]
  have hcard : (documentos [("A", [(1 : Int)])]).card = 1 := by decide
  simp [modeloDe, pesosTermo, hcard, firstKeys, Real.logb_one]

/-- C6 (amended): the weight table stores an entry for exactly the
pairs `(t, d)` with `freq(t,d) ≥ 1` — an entry is present iff `d`
occurs in `t`'s occurrence sequence; absence still means weight 0, but
stored weights may be 0 (whenever idf(t) = 0). -/
theorem C6_amended_presence (lista : List (String × List Int)) (t : String) (L : List Int)
    (d : Int) (hnd : (lista.map Prod.fst).Nodup) (ht : (t, L) ∈ lista)
    (hN : (documentos lista).card ≠ 0) :
    ∃ docs, dictGet t (calcular_pesos lista).1 = some docs ∧
      ((∃ w, dictGet d docs = some w) ↔ d ∈ L) := by
  rw [calcular_pesos, if_neg hN]
  refine ⟨_, dictGet_modeloDe hnd ht, ?_⟩
  rw [pesosTermo, dictGet_map_mk]
  by_cases hdL : d ∈ firstKeys L
  · simp [if_pos hdL, mem_firstKeys.mp hdL]
  · simp only [if_neg hdL]
    constructor
    · rintro ⟨w, hw⟩
      cases hw
    · intro hdL2
      exact absurd (mem_firstKeys.mpr hdL2) hdL

/-- Witness for C6 (amended) at the inverted list `[("A", [1])]`. -/
theorem C6_amended_witness :
    ((([("A", [(1 : Int)])] : List (String × List Int)).map Prod.fst).Nodup ∧
      ("A", [(1 : Int)]) ∈ ([("A", [(1 : Int)])] : List (String × List Int)) ∧
      (documentos [("A", [(1 : Int)])]).card ≠ 0) ∧
    ∃ docs, dictGet "A" (calcular_pesos [("A", [(1 : Int)])]).1 = some docs ∧
      ((∃ w, dictGet 1 docs = some w) ↔ (1 : Int) ∈ [(1 : Int)]) :=
  ⟨⟨by decide, by decide, by decide⟩,
    C6_amended_presence [("A", [(1 : Int)])] "A" [1] 1 (by decide) (by decide) (by decide)⟩

/-- C8 (counterexample): the inverted list `[("A", [-1]), ("B", [2])]`
carries a negative document id, yet the Indexer raises no data-format
error: it computes the full weight table, including a TF-IDF weight for
document −1, and a norm-table entry for document −1. -/
theorem C8_counterexample :
    (calcular_pesos [("A", [(-1 : Int)]), ("B", [(2 : Int)])]).1 =
      [("A", [((-1 : Int), Real.logb 10 2)]), ("B", [((2 : Int), Real.logb 10 2)])] ∧
    dictGet (-1 : Int) (calcular_pesos [("A", [(-1 : Int)]), ("B", [(2 : Int)])]).2 =
      some (Real.sqrt ((Real.logb 10 2) ^ 2)) := by
  have hcard : (documentos [("A", [(-1 : Int)]), ("B", [(2 : Int)])]).card = 2 := by decide
  have hm : modeloDe [("A", [(-1 : Int)]), ("B", [(2 : Int)])] =
      [("A", [((-1 : Int), Real.logb 10 2)]), ("B", [((2 : Int), Real.logb 10 2)])] := by
    simp [modeloDe, pesosTermo, hcard, firstKeys, Real.logb_one]
  constructor
  · rw [calcular_pesos, if_neg (by decide), hm]
  · rw [calcular_pesos, if_neg (by decide), hm]
    simp [normasDe, normasQuadradas, updAdd, dictGet]

/-- C8 (amended): the Indexer performs no validation of document ids:
an occurrence list containing a negative id is processed normally — the
weight table receives an entry for the negative id and the run is not
aborted.  (Only occurrence strings that fail literal parsing raise an
error while loading.) -/
theorem C8_amended_no_id_validation (lista : List (String × List Int)) (t : String)
    (L : List Int) (d : Int) (hnd : (lista.map Prod.fst).Nodup) (ht : (t, L) ∈ lista)
    (hd : d ∈ L) (hneg : d < 0) :
    ∃ docs w, dictGet t (calcular_pesos lista).1 = some docs ∧ dictGet d docs = some w := by
  have hN := documentos_card_ne_zero ht hd
  rw [calcular_pesos, if_neg hN]
  exact ⟨_, _, dictGet_modeloDe hnd ht, dictGet_pesosTermo hd _⟩

/-- Witness for C8 (amended) at the list `[("A", [-1]), ("B", [2])]`. -/
theorem C8_amended_witness :
    ((([("A", [(-1 : Int)]), ("B", [(2 : Int)])] : List (String × List Int)).map
        Prod.fst).Nodup ∧
      ("A", [(-1 : Int)]) ∈
        ([("A", [(-1 : Int)]), ("B", [(2 : Int)])] : List (String × List Int)) ∧
      (-1 : Int) ∈ [(-1 : Int)] ∧ (-1 : Int) < 0) ∧
    ∃ docs w, dictGet "A" (calcular_pesos [("A", [(-1 : Int)]), ("B", [(2 : Int)])]).1 =
        some docs ∧ dictGet (-1) docs = some w :=
  ⟨⟨by decide, by decide, by decide, by decide⟩,
    C8_amended_no_id_validation _ "A" [-1] (-1) (by decide) (by decide) (by decide)
      (by decide)⟩

/-- C10: a document that appears under a query term in the weight table
but has no entry in the norm table is neither dropped nor an error: the
lookup defaults to norm 1, and the document is ranked with similarity
equal to its raw accumulated score divided by `1 × queryNorm`. -/
theorem C10_missing_norm_defaults_one (modeloTfidf : List (String × List (Int × ℝ)))
    (normasDocumentos : List (Int × ℝ)) (texto : String) (d : Int) (raw : ℝ)
    (hd : dictGet d (scoresAcc modeloTfidf (split_query texto)) = some raw)
    (hnone : dictGet d normasDocumentos = none) :
    ∃ fmt, processar_consulta modeloTfidf normasDocumentos texto = some fmt ∧
      (d, raw / (1 * Real.sqrt (((split_query texto).length : ℕ) : ℝ))) ∈
        fmt.map (fun r => r.2) := by
  have htok : split_query texto ≠ [] := by
    intro he
    rw [he] at hd
    simp [scoresAcc, dictGet] at hd
  rw [processar_consulta_some htok]
  refine ⟨_, rfl, ?_⟩
  rw [formatar_map_snd]
  refine ((rankear_perm _).mem_iff).mpr ?_
  rw [normalizar]
  refine List.mem_map.mpr ⟨(d, raw), mem_of_dictGet_eq_some hd, ?_⟩
  simp [hnone]

/-- Witness for C10: document 1 carries weight 2 for the only query
term but the norm table is empty. -/
theorem C10_witness :
    (dictGet (1 : Int) (scoresAcc [("A", [((1 : Int), (2 : ℝ))])] (split_query "A")) =
        some 2 ∧
      dictGet (1 : Int) ([] : List (Int × ℝ)) = none) ∧
    ∃ fmt, processar_consulta [("A", [((1 : Int), (2 : ℝ))])] [] "A" = some fmt ∧
      ((1 : Int), (2 : ℝ) / (1 * Real.sqrt (((split_query "A").length : ℕ) : ℝ))) ∈
        fmt.map (fun r => r.2) := by
  have hd : dictGet (1 : Int) (scoresAcc [("A", [((1 : Int), (2 : ℝ))])] (split_query "A")) =
      some 2 := by
    have hs : split_query "A" = ["A"] := by decide
    rw [hs]
    simp [scoresAcc, dictGet, updAdd]
  have hnone : dictGet (1 : Int) ([] : List (Int × ℝ)) = none := rfl
  exact ⟨⟨hd, hnone⟩, C10_missing_norm_defaults_one _ _ "A" 1 2 hd hnone⟩

end BuscaVetorizada
